import Mathlib

/-!
Verification of the keyset-pagination engine of the `model` repository.

The engine is `exports.find` in `src/index.js` (lines 220-348); a second,
near-identical copy lives in `src/unnamed/part_000` (lines 172-266).  The
helpers `exports.invert` (115-125), `exports.first` (127-136) and
`exports.cursor` (138-148) are translated one-to-one.

Shallow-embedding conventions:
* a stored record is an association list from field names (numbers here)
  to integer values; a missing field reads as `0`;
* the sort specification is an ordered list of `(field, order)` pairs,
  `order ∈ {+1, -1}` (the spec's SortSpec; JS iterates object keys in
  insertion order, which this list makes explicit);
* the backing store (a MongoDB collection behind mongoose) is not part of
  the repository; `storeExec` models it from the spec's interface, §6:
  filter by the query predicate, sort by the explicit ordered field list,
  apply the index bound keyed by the hint fields, truncate to the limit.
  MongoDB's documented bound semantics are used: `min` is an inclusive
  and `max` an exclusive bound in index-key order.  (Exclusive `max` is
  also forced by the spec's own §8 properties: with an inclusive upper
  bound the `previous` link would repeat the boundary row instead of
  resuming the preceding page exactly.)
* the opaque mongo query object is a `Nat` token whose meaning is given
  by a predicate-valued environment `sem`;
* the external collaborators (the `validators` package, `utils.visibles`)
  are not under `src/`; the `count < 1` validation is modelled from the
  spec (§7) and the visibility post-processing is an abstract
  record-to-record map.
-/

namespace Model

/-- A field name. -/
abbrev Field := Nat

/-- A stored record: an association list from fields to integer values.
A field that is absent reads as `0` (`getF`). -/
abbrev Record := List (Field × Int)

/-- Value of field `f` in record `r` (first binding wins, `0` if absent). -/
def getF (r : Record) (f : Field) : Int :=
  (List.lookup f r).getD 0

/-- A sort specification / index hint: ordered `(field, order)` pairs. -/
abbrev SortSpec := List (Field × Int)

/-- `exports.invert` (src/index.js 115-125): negate every order of a
field-keyed sort object, returning a fresh object. -/
def invert (o : SortSpec) : SortSpec :=
  o.map (fun p => (p.1, -p.2))

/-- `exports.first` (src/index.js 127-136): the first key of the object,
`none` when it is empty. -/
def first (o : SortSpec) : Option Field :=
  o.head?.map (fun p => p.1)

/-- `sort[exports.first(sort)]` (src/index.js 232): the order attached to
the primary (first) field; `0` stands for JS `undefined` on an empty sort. -/
def primaryOrder (s : SortSpec) : Int :=
  ((first s).bind (fun f => List.lookup f s)).getD 0

/-- `exports.cursor` (src/index.js 138-148): project record `o` onto the
fields of the index, in index order. -/
def cursor (index : SortSpec) (o : Record) : Record :=
  index.map (fun p => (p.1, getF o p.1))

/-- Three-way comparison of integers (the store's key comparison). -/
def icmp (a b : Int) : Ordering :=
  if a < b then .lt else if a = b then .eq else .gt

/-- Comparison of two values under one sort order: `+1` compares
ascending, any other order descending (only `±1` occur in valid sorts). -/
def fieldCmp (ord : Int) (x y : Int) : Ordering :=
  if ord = 1 then icmp x y else icmp y x

/-- Lexicographic comparison of two records under a sort specification:
earlier fields take precedence, later fields break ties. -/
def cmps : SortSpec → Record → Record → Ordering
  | [], _, _ => .eq
  | (f, o) :: rest, a, b =>
    match fieldCmp o (getF a f) (getF b f) with
    | .lt => .lt
    | .gt => .gt
    | .eq => cmps rest a b

/-- `a` sorts no later than `b` under sort `s`. -/
def leB (s : SortSpec) (a b : Record) : Bool :=
  decide (cmps s a b ≠ Ordering.gt)

/-- All orders of a sort specification are `+1` or `-1`. -/
def ValidOrders (s : SortSpec) : Prop :=
  ∀ p ∈ s, p.2 = 1 ∨ p.2 = -1

instance (s : SortSpec) : Decidable (ValidOrders s) := by
  unfold ValidOrders
  infer_instance

/-- The spec's SearchRequest (§3): `ctx.search` of `exports.find`.
`query` is the opaque store filter (a token interpreted by `sem`). -/
structure SearchReq where
  query : Nat
  sort : SortSpec
  count : Nat
  cursor : Option Record := none
  direction : Option Int := none
  fields : Option (List (Field × Int)) := none
deriving Repr, DecidableEq

/-- The spec's PageLink: the objects `exports.find` places into
`{last, next}` (src/index.js 286-319). -/
structure Link where
  query : Nat
  sort : SortSpec
  cursor : Record
  direction : Int
deriving Repr, DecidableEq

/-- Output of the sort-and-direction resolution (src/index.js 232-243). -/
structure Resolved where
  order : Int
  direction : Int
  natural : Bool
  hint : SortSpec
  inv : Bool
  sorter : SortSpec
deriving Repr, DecidableEq

/-- src/index.js 232-243: compute order, effective direction, `natural`,
the index hint, the `invert` flag and the sorter sent to the store.
JS `search.direction || order` falls back on `undefined` and on `0`. -/
def resolve (sort : SortSpec) (requested : Option Int) : Resolved :=
  let order := primaryOrder sort
  let direction := match requested with
    | Option.none => order
    | Option.some d => if d = 0 then order else d
  let natural : Bool := decide (direction = 1)
  if order = 1 then
    { order := order, direction := direction, natural := natural,
      hint := sort, inv := !natural,
      sorter := if !natural then invert sort else sort }
  else
    { order := order, direction := direction, natural := natural,
      hint := invert sort, inv := natural,
      sorter := if natural then invert sort else sort }

/-- A store-level range restriction keyed by the hint fields. -/
inductive Bound where
  | free : Bound
  | min : Record → Bound
  | max : Record → Bound
deriving Repr, DecidableEq

/-- src/index.js 248-255: a cursor becomes `options.min` on a natural
scan and `options.max` otherwise; no cursor, no bound. -/
def boundOf (natural : Bool) : Option Record → Bound
  | Option.none => Bound.free
  | Option.some c => if natural then Bound.min c else Bound.max c

/-- Modelled from the spec: whether a row passes the store's index bound
(§6(d)).  Bounds compare in index-key (hint) order; per MongoDB, `min`
is inclusive and `max` exclusive (see the header note: §8's
page-resumption properties force the exclusive `max`). -/
def boundKeep (hint : SortSpec) : Bound → Record → Bool
  | Bound.free, _ => true
  | Bound.min c, r => decide (cmps hint c r ≠ Ordering.gt)
  | Bound.max c, r => decide (cmps hint r c = Ordering.lt)

/-- Modelled from the spec: the backing store's query execution (§6),
which is not part of this repository.  It filters by the query
predicate, orders by the explicit sorter (the hint names the index
realising that order), applies the bound keyed by the hint fields and
returns at most `limit` rows. -/
def storeExec (store : List Record) (pred : Record → Bool)
    (sorter hint : SortSpec) (bound : Bound) (limit : Nat) : List Record :=
  (((store.filter pred).insertionSort (fun a b => leB sorter a b = true)).filter
      (boundKeep hint bound)).take limit

/-- Validation failures surfaced to the caller (spec §7). -/
inductive Err where
  | contractViolation : Err
deriving Repr, DecidableEq

/-- src/index.js 283-345 (the callback body, before the external
`utils.visibles` post-processing): trim the overflow row, build the
`left`/`right` links, map them onto `{last, next}` by the primary order
and reorder the rows by the `invert` flag.  `queried` is `ctx.queried`,
the query object the links advertise.  Returns
`(records, last, next)` as handed to `done(null, ooo, {last, next})`. -/
def assemble (queried : Nat) (search : SearchReq) (r : Resolved)
    (rows : List Record) : List Record × Option Link × Option Link :=
  let count := search.count + 1
  let right : Option Link :=
    if r.natural then
      (if rows.length = count then
        Option.some { query := queried, sort := search.sort,
                      cursor := cursor r.hint (rows.getLastD []),
                      direction := 1 }
       else Option.none)
    else
      search.cursor.map (fun c =>
        { query := queried, sort := search.sort, cursor := c, direction := 1 })
  let left : Option Link :=
    if r.natural then
      search.cursor.map (fun c =>
        { query := queried, sort := search.sort, cursor := c, direction := -1 })
    else
      (if rows.length = count then
        Option.some { query := queried, sort := search.sort,
                      cursor := cursor r.hint (rows.dropLast.getLastD []),
                      direction := -1 }
       else Option.none)
  let rows1 := if rows.length = count then rows.dropLast else rows
  let next := if r.order = 1 then right else left
  let last := if r.order = 1 then left else right
  let records := if r.inv then rows1.reverse else rows1
  (records, last, next)

/-- `exports.find` (src/index.js 220-348), with the external
collaborators factored out: the `validators` check is modelled from the
spec (§7: `count < 1` raises a ContractViolation before the store is
consulted — the validators package is not under `src/`), the store query
is `storeExec`, and the per-record `utils.visibles`/field filtering
applied afterwards is external (`findI` below reattaches it). -/
def find (store : List Record) (sem : Nat → Record → Bool) (queried : Nat)
    (search : SearchReq) : Except Err (List Record × Option Link × Option Link) :=
  if search.count < 1 then Except.error Err.contractViolation
  else
    let r := resolve search.sort search.direction
    let rows := storeExec store (sem search.query) r.sorter r.hint
      (boundOf r.natural search.cursor) (search.count + 1)
    Except.ok (assemble queried search r rows)

/-- The rows `exports.find` receives from the store for a request. -/
def fetchedRows (store : List Record) (sem : Nat → Record → Bool)
    (search : SearchReq) : List Record :=
  let r := resolve search.sort search.direction
  storeExec store (sem search.query) r.sorter r.hint
    (boundOf r.natural search.cursor) (search.count + 1)

/-- The fetched rows after the overflow trim (`oo.pop()`), still in
physical scan order. -/
def pageRows (store : List Record) (sem : Nat → Record → Bool)
    (search : SearchReq) : List Record :=
  let rows := fetchedRows store sem search
  if rows.length = search.count + 1 then rows.dropLast else rows

/-- The `last` (previous) link of a find outcome. -/
def prevLink (out : Except Err (List Record × Option Link × Option Link)) :
    Option Link :=
  match out with
  | Except.error _ => Option.none
  | Except.ok (_, l, _) => l

/-- The `next` link of a find outcome. -/
def nextLink (out : Except Err (List Record × Option Link × Option Link)) :
    Option Link :=
  match out with
  | Except.error _ => Option.none
  | Except.ok (_, _, n) => n

/-- The records of a find outcome. -/
def recordsOf (out : Except Err (List Record × Option Link × Option Link)) :
    List Record :=
  match out with
  | Except.error _ => []
  | Except.ok (o, _, _) => o

/-- Issue the request a link holds (spec §3: a PageLink is a fully
formed SearchRequest; the page size is the one being walked with). -/
def Link.toReq (lk : Link) (count : Nat) : SearchReq :=
  { query := lk.query, sort := lk.sort, count := count,
    cursor := Option.some lk.cursor, direction := Option.some lk.direction,
    fields := Option.none }

/-- The forward walk of spec §8: issue the request, then keep following
`next` until it is `null`, concatenating the pages.  `none` means the
fuel ran out before `next` became `null`. -/
def walkAux (store : List Record) (sem : Nat → Record → Bool) (queried : Nat) :
    Nat → SearchReq → Option (List Record)
  | 0, _ => Option.none
  | Nat.succ fuel, req =>
    match find store sem queried req with
    | Except.error _ => Option.none
    | Except.ok (recs, _, nxt) =>
      match nxt with
      | Option.none => Option.some recs
      | Option.some lk =>
        (walkAux store sem queried fuel (lk.toReq req.count)).map
          (fun rest => recs ++ rest)

/-- All records matching the filter, in the order dictated by the sort
specification. -/
def sortedMatching (store : List Record) (pred : Record → Bool)
    (s : SortSpec) : List Record :=
  (store.filter pred).insertionSort (fun a b => leB s a b = true)

/-- Strict ordering predicate under sort `s`. -/
def ltP (s : SortSpec) (a b : Record) : Prop := cmps s a b = Ordering.lt

/-- The field number designated for the reserved `visibility` field name
(record field names are numbers in this embedding; `visibility` is one
of them, fixed here as `0`). -/
def visibilityField : Field := 0

/-- JS property assignment `fields.visibility = 1` (src/index.js 246) on
a field-projection object: update the key in place if present, append it
otherwise. -/
def setVisibility (fs : List (Field × Int)) : List (Field × Int) :=
  if (List.lookup visibilityField fs).isSome
  then fs.map (fun p => if p.1 = visibilityField then (p.1, 1) else p)
  else fs ++ [(visibilityField, 1)]

/-- src/index.js 244-247: clone `search.fields` and, when present, force
`visibility = 1` into the projection. -/
def fieldsWithVisibility :
    Option (List (Field × Int)) → Option (List (Field × Int))
  | Option.none => Option.none
  | Option.some fs => Option.some (setVisibility fs)

/-- The local `filter` function of src/index.js 256-270: keep a record
whole when there is no projection or when the projection asks for
`visibility` (truthy), otherwise keep only the projected fields. -/
def filterFields (fields : Option (List (Field × Int))) (o : Record) : Record :=
  match fields with
  | Option.none => o
  | Option.some fs =>
    if (List.lookup visibilityField fs).getD 0 ≠ 0 then o
    else o.filter (fun p => decide ((List.lookup p.1 fs).getD 0 ≠ 0))

/-- `exports.find` of src/index.js (220-348) in full, as one function:
the near-duplicate copy with the field projection and the per-record
visibility filtering inlined, and the links stamped with `ctx.queried`.
`vis` abstracts the external `utils.visibles` collaborator, applied to
each filtered record; the projection `select(fields)` happens inside the
store and is not modelled (claims about this copy fix the store
response).  The `count < 1` validation is modelled from the spec (§7). -/
def findI (vis : Record → Record) (store : List Record)
    (sem : Nat → Record → Bool) (queried : Nat) (search : SearchReq) :
    Except Err (List Record × Option Link × Option Link) :=
  if search.count < 1 then Except.error Err.contractViolation
  else
    let sort := search.sort
    let count := search.count + 1
    let order := primaryOrder sort
    let direction := match search.direction with
      | Option.none => order
      | Option.some d => if d = 0 then order else d
    let natural : Bool := decide (direction = 1)
    let hint := if order = 1 then sort else invert sort
    let inv : Bool := if order = 1 then !natural else natural
    let sorter := if order = 1 then (if !natural then invert sort else sort)
                  else (if natural then invert sort else sort)
    let fields := fieldsWithVisibility search.fields
    let options := boundOf natural search.cursor
    let oo := storeExec store (sem search.query) sorter hint options count
    let right : Option Link :=
      if natural then
        (if oo.length = count then
          Option.some { query := queried, sort := sort,
                        cursor := cursor hint (oo.getLastD []), direction := 1 }
         else Option.none)
      else
        search.cursor.map (fun c =>
          { query := queried, sort := sort, cursor := c, direction := 1 })
    let left : Option Link :=
      if natural then
        search.cursor.map (fun c =>
          { query := queried, sort := sort, cursor := c, direction := -1 })
      else
        (if oo.length = count then
          Option.some { query := queried, sort := sort,
                        cursor := cursor hint (oo.dropLast.getLastD []),
                        direction := -1 }
         else Option.none)
    let oo1 := if oo.length = count then oo.dropLast else oo
    let next := if order = 1 then right else left
    let last := if order = 1 then left else right
    let oo2 := if inv then oo1.reverse else oo1
    Except.ok (oo2.map (fun o => vis (filterFields fields o)), last, next)

/-- `exports.find` of src/unnamed/part_000 (172-266) in full, as one
function: the near-duplicate copy without visibility filtering or
change publishing, whose links carry `search.query` itself.  The
`count < 1` validation is modelled from the spec (§7), as for `find`. -/
def findP (store : List Record) (sem : Nat → Record → Bool)
    (search : SearchReq) :
    Except Err (List Record × Option Link × Option Link) :=
  if search.count < 1 then Except.error Err.contractViolation
  else
    let sort := search.sort
    let count := search.count + 1
    let order := primaryOrder sort
    let direction := match search.direction with
      | Option.none => order
      | Option.some d => if d = 0 then order else d
    let natural : Bool := decide (direction = 1)
    let hint := if order = 1 then sort else invert sort
    let inv : Bool := if order = 1 then !natural else natural
    let sorter := if order = 1 then (if !natural then invert sort else sort)
                  else (if natural then invert sort else sort)
    let options := boundOf natural search.cursor
    let oo := storeExec store (sem search.query) sorter hint options count
    let right : Option Link :=
      if natural then
        (if oo.length = count then
          Option.some { query := search.query, sort := sort,
                        cursor := cursor hint (oo.getLastD []), direction := 1 }
         else Option.none)
      else
        search.cursor.map (fun c =>
          { query := search.query, sort := sort, cursor := c, direction := 1 })
    let left : Option Link :=
      if natural then
        search.cursor.map (fun c =>
          { query := search.query, sort := sort, cursor := c, direction := -1 })
      else
        (if oo.length = count then
          Option.some { query := search.query, sort := sort,
                        cursor := cursor hint (oo.dropLast.getLastD []),
                        direction := -1 }
         else Option.none)
    let oo1 := if oo.length = count then oo.dropLast else oo
    let next := if order = 1 then right else left
    let last := if order = 1 then left else right
    let oo2 := if inv then oo1.reverse else oo1
    Except.ok (oo2, last, next)

/-- Replace the query a link advertises (the only thing distinguishing
the two copies' links). -/
def relabelQuery (q' : Nat) (lk : Link) : Link :=
  { query := q', sort := lk.sort, cursor := lk.cursor,
    direction := lk.direction }

/-! ### Properties of the key comparison -/

theorem icmp_self (a : Int) : icmp a a = Ordering.eq := by
  unfold icmp
  split_ifs <;> first | rfl | (exfalso; omega)

theorem icmp_swap (a b : Int) : (icmp a b).swap = icmp b a := by
  unfold icmp
  split_ifs <;> first | rfl | (exfalso; omega)

theorem icmp_lt_iff (a b : Int) : icmp a b = Ordering.lt ↔ a < b := by
  unfold icmp
  split_ifs <;> simp_all

theorem icmp_eq_iff (a b : Int) : icmp a b = Ordering.eq ↔ a = b := by
  unfold icmp
  split_ifs <;> simp_all <;> omega

theorem fieldCmp_self (o x : Int) : fieldCmp o x x = Ordering.eq := by
  unfold fieldCmp
  split_ifs <;> exact icmp_self x

theorem fieldCmp_swap (o x y : Int) : (fieldCmp o x y).swap = fieldCmp o y x := by
  unfold fieldCmp
  split_ifs <;> exact icmp_swap _ _

theorem fieldCmp_eq (o x y : Int) (h : fieldCmp o x y = Ordering.eq) : x = y := by
  unfold fieldCmp at h
  split_ifs at h
  · exact (icmp_eq_iff x y).mp h
  · exact ((icmp_eq_iff y x).mp h).symm

theorem fieldCmp_neg (o x y : Int) (ho : o = 1 ∨ o = -1) :
    fieldCmp (-o) x y = (fieldCmp o x y).swap := by
  rcases ho with h | h <;> subst h <;>
    simp [fieldCmp, icmp_swap]

theorem fieldCmp_lt_trans (o x y z : Int) (h1 : fieldCmp o x y = Ordering.lt)
    (h2 : fieldCmp o y z = Ordering.lt) : fieldCmp o x z = Ordering.lt := by
  unfold fieldCmp at *
  split_ifs at * <;> rw [icmp_lt_iff] at * <;> omega

theorem cmps_self (s : SortSpec) (a : Record) : cmps s a a = Ordering.eq := by
  induction s with
  | nil => rfl
  | cons p rest ih =>
    obtain ⟨f, o⟩ := p
    simp [cmps, fieldCmp_self, ih]

theorem cmps_swap (s : SortSpec) (a b : Record) :
    (cmps s a b).swap = cmps s b a := by
  induction s with
  | nil => rfl
  | cons p rest ih =>
    obtain ⟨f, o⟩ := p
    simp only [cmps]
    cases h : fieldCmp o (getF a f) (getF b f) with
    | lt =>
      have hb : fieldCmp o (getF b f) (getF a f) = Ordering.gt := by
        rw [← fieldCmp_swap, h]; rfl
      simp [hb, Ordering.swap]
    | eq =>
      have hb : fieldCmp o (getF b f) (getF a f) = Ordering.eq := by
        rw [← fieldCmp_swap, h]; rfl
      simp [hb, ih]
    | gt =>
      have hb : fieldCmp o (getF b f) (getF a f) = Ordering.lt := by
        rw [← fieldCmp_swap, h]; rfl
      simp [hb, Ordering.swap]

theorem cmps_invert (s : SortSpec) (hv : ValidOrders s) (a b : Record) :
    cmps (invert s) a b = (cmps s a b).swap := by
  induction s with
  | nil => rfl
  | cons p rest ih =>
    obtain ⟨f, o⟩ := p
    have hvh : o = 1 ∨ o = -1 := hv (f, o) (List.mem_cons_self _ _)
    have hvr : ValidOrders rest := fun q hq => hv q (List.mem_cons_of_mem _ hq)
    simp only [invert, List.map_cons, cmps]
    rw [fieldCmp_neg o _ _ hvh]
    cases h : fieldCmp o (getF a f) (getF b f) with
    | lt => simp [h, Ordering.swap]
    | eq =>
      simp only [h, Ordering.swap]
      simpa [invert] using ih hvr
    | gt => simp [h, Ordering.swap]

theorem cmps_eq_congr_left (s : SortSpec) (a b c : Record)
    (h : cmps s a b = Ordering.eq) : cmps s a c = cmps s b c := by
  induction s with
  | nil => rfl
  | cons p rest ih =>
    obtain ⟨f, o⟩ := p
    simp only [cmps] at h ⊢
    cases hab : fieldCmp o (getF a f) (getF b f) with
    | lt => rw [hab] at h; exact absurd h (by simp)
    | gt => rw [hab] at h; exact absurd h (by simp)
    | eq =>
      rw [hab] at h
      have hv : getF a f = getF b f := fieldCmp_eq o _ _ hab
      rw [hv]
      cases hbc : fieldCmp o (getF b f) (getF c f) with
      | lt => rfl
      | gt => rfl
      | eq => exact ih h

theorem cmps_eq_congr_right (s : SortSpec) (a b c : Record)
    (h : cmps s b c = Ordering.eq) : cmps s a b = cmps s a c := by
  have h' : cmps s c b = Ordering.eq := by
    rw [← cmps_swap, h]; rfl
  have := cmps_eq_congr_left s c b a h'
  calc cmps s a b = (cmps s b a).swap := by rw [cmps_swap]
    _ = (cmps s c a).swap := by rw [cmps_eq_congr_left s b c a (by rw [← cmps_swap, h']; rfl)]
    _ = cmps s a c := by rw [cmps_swap]

theorem cmps_lt_trans (s : SortSpec) (a b c : Record)
    (h1 : cmps s a b = Ordering.lt) (h2 : cmps s b c = Ordering.lt) :
    cmps s a c = Ordering.lt := by
  induction s with
  | nil => exact absurd h1 (by simp [cmps])
  | cons p rest ih =>
    obtain ⟨f, o⟩ := p
    simp only [cmps] at h1 h2 ⊢
    cases hab : fieldCmp o (getF a f) (getF b f) with
    | gt => rw [hab] at h1; exact absurd h1 (by simp)
    | lt =>
      cases hbc : fieldCmp o (getF b f) (getF c f) with
      | gt => rw [hbc] at h2; exact absurd h2 (by simp)
      | lt => rw [fieldCmp_lt_trans o _ _ _ hab hbc]
      | eq =>
        have hv : getF b f = getF c f := fieldCmp_eq o _ _ hbc
        rw [← hv, hab]
    | eq =>
      have hv : getF a f = getF b f := fieldCmp_eq o _ _ hab
      cases hbc : fieldCmp o (getF b f) (getF c f) with
      | gt => rw [hbc] at h2; exact absurd h2 (by simp)
      | lt => rw [hv, hbc]
      | eq =>
        rw [hab] at h1
        rw [hbc] at h2
        rw [hv, hbc]
        exact ih h1 h2

theorem leB_trans (s : SortSpec) (a b c : Record)
    (h1 : cmps s a b ≠ Ordering.gt) (h2 : cmps s b c ≠ Ordering.gt) :
    cmps s a c ≠ Ordering.gt := by
  cases hab : cmps s a b with
  | gt => exact absurd hab h1
  | eq => rw [cmps_eq_congr_left s a b c hab]; exact h2
  | lt =>
    cases hbc : cmps s b c with
    | gt => exact absurd hbc h2
    | eq => rw [← cmps_eq_congr_right s a b c hbc, hab]; simp
    | lt => rw [cmps_lt_trans s a b c hab hbc]; simp

theorem leB_total (s : SortSpec) (a b : Record)
    (h : cmps s a b = Ordering.gt) : cmps s b a ≠ Ordering.gt := by
  rw [← cmps_swap, h]
  simp [Ordering.swap]

/-! ### Cursor transparency: a cursor compares like the record it was
built from, on the fields of its index. -/

theorem getF_cons (g : Field) (v : Int) (t : Record) (f : Field) :
    getF ((g, v) :: t) f = if f = g then v else getF t f := by
  simp only [getF, List.lookup]
  by_cases hfg : f = g
  · simp [hfg]
  · simp [beq_eq_false_iff_ne.mpr hfg, hfg]

theorem getF_cursor (index : SortSpec) (r : Record) (f : Field)
    (hf : f ∈ index.map (fun p => p.1)) : getF (cursor index r) f = getF r f := by
  induction index with
  | nil => simp at hf
  | cons p rest ih =>
    obtain ⟨g, o⟩ := p
    simp only [cursor, List.map_cons] at hf ⊢
    rw [getF_cons]
    by_cases hfg : f = g
    · subst hfg
      simp
    · have hf' : f ∈ rest.map (fun p => p.1) := by
        rcases List.mem_cons.mp hf with hh | hh
        · exact absurd hh hfg
        · exact hh
      simpa [hfg] using ih hf'

theorem cmps_congr_left (s : SortSpec) (a b c : Record)
    (h : ∀ f ∈ s.map (fun p => p.1), getF a f = getF b f) :
    cmps s a c = cmps s b c := by
  induction s with
  | nil => rfl
  | cons p rest ih =>
    obtain ⟨f, o⟩ := p
    have hf : getF a f = getF b f := h f (by simp)
    simp only [cmps, hf]
    cases fieldCmp o (getF b f) (getF c f) with
    | lt => rfl
    | gt => rfl
    | eq => exact ih (fun g hg => h g (by simp [hg]))

theorem cursor_cmps_left (s : SortSpec) (r b : Record) :
    cmps s (cursor s r) b = cmps s r b :=
  cmps_congr_left s (cursor s r) r b (fun f hf => getF_cursor s r f hf)

theorem cursor_cmps_right (s : SortSpec) (a r : Record) :
    cmps s a (cursor s r) = cmps s a r := by
  calc cmps s a (cursor s r) = (cmps s (cursor s r) a).swap := by rw [cmps_swap]
    _ = (cmps s r a).swap := by rw [cursor_cmps_left]
    _ = cmps s a r := by rw [cmps_swap]

/-! ### Filtering a strictly sorted list with a keyset bound drops an
exact prefix. -/

/-- An inclusive lower bound at `h` keeps exactly the suffix that starts
at `h`, when the list is strictly sorted. -/
theorem filter_min_suffix (s : SortSpec) (A T' : List Record) (h : Record)
    (hp : List.Pairwise (ltP s) (A ++ h :: T')) :
    (A ++ h :: T').filter (fun r => decide (cmps s h r ≠ Ordering.gt)) = h :: T' := by
  rw [List.pairwise_append] at hp
  obtain ⟨hpA, hpHT, hAH⟩ := hp
  rw [List.pairwise_cons] at hpHT
  obtain ⟨hHT, hpT⟩ := hpHT
  rw [List.filter_append]
  have hA : A.filter (fun r => decide (cmps s h r ≠ Ordering.gt)) = [] := by
    rw [List.filter_eq_nil_iff]
    intro a ha
    have hah : cmps s a h = Ordering.lt := hAH a ha h (List.mem_cons_self _ _)
    have : cmps s h a = Ordering.gt := by
      rw [← cmps_swap, hah]; rfl
    simp [this]
  have hhead : decide (cmps s h h ≠ Ordering.gt) = true := by
    simp [cmps_self]
  have hT : T'.filter (fun r => decide (cmps s h r ≠ Ordering.gt)) = T' := by
    rw [List.filter_eq_self]
    intro b hb
    have : cmps s h b = Ordering.lt := hHT b hb
    simp [this]
  rw [hA, List.nil_append, List.filter_cons, hhead, if_pos rfl, hT]

/-- An exclusive upper bound at `h` keeps exactly the part strictly after
`h`, when the list is strictly sorted.  (Read right-to-left: this is the
backward-scan bound, stated in sorter order.) -/
theorem filter_gt_suffix (s : SortSpec) (A T : List Record) (h : Record)
    (hp : List.Pairwise (ltP s) (A ++ h :: T)) :
    (A ++ h :: T).filter (fun r => decide (cmps s h r = Ordering.lt)) = T := by
  rw [List.pairwise_append] at hp
  obtain ⟨hpA, hpHT, hAH⟩ := hp
  rw [List.pairwise_cons] at hpHT
  obtain ⟨hHT, hpT⟩ := hpHT
  rw [List.filter_append]
  have hA : A.filter (fun r => decide (cmps s h r = Ordering.lt)) = [] := by
    rw [List.filter_eq_nil_iff]
    intro a ha
    have hah : cmps s a h = Ordering.lt := hAH a ha h (List.mem_cons_self _ _)
    have : cmps s h a = Ordering.gt := by
      rw [← cmps_swap, hah]; rfl
    simp [this]
  have hhead : decide (cmps s h h = Ordering.lt) = false := by
    simp [cmps_self]
  have hT : T.filter (fun r => decide (cmps s h r = Ordering.lt)) = T := by
    rw [List.filter_eq_self]
    intro b hb
    have : cmps s h b = Ordering.lt := hHT b hb
    simp [this]
  rw [hA, List.nil_append, List.filter_cons, hhead, if_neg Bool.false_ne_true, hT]

/-! ### The store's sorted output -/

theorem storeExec_eq (store : List Record) (pred : Record → Bool)
    (sorter hint : SortSpec) (bound : Bound) (limit : Nat) :
    storeExec store pred sorter hint bound limit =
      ((sortedMatching store pred sorter).filter (boundKeep hint bound)).take limit :=
  rfl

theorem sortedMatching_perm (store : List Record) (pred : Record → Bool)
    (s : SortSpec) :
    List.Perm (sortedMatching store pred s) (store.filter pred) :=
  List.perm_insertionSort _ _

theorem sortedMatching_pairwise_le (store : List Record) (pred : Record → Bool)
    (s : SortSpec) :
    List.Pairwise (fun a b => cmps s a b ≠ Ordering.gt)
      (sortedMatching store pred s) := by
  haveI : IsTotal Record (fun a b => leB s a b = true) := by
    constructor
    intro a b
    by_cases h : cmps s a b = Ordering.gt
    · right
      simpa [leB] using leB_total s a b h
    · left
      simpa [leB] using h
  haveI : IsTrans Record (fun a b => leB s a b = true) := by
    constructor
    intro a b c h1 h2
    simp only [leB, decide_eq_true_eq] at h1 h2 ⊢
    exact leB_trans s a b c h1 h2
  have h := List.sorted_insertionSort (fun a b : Record => leB s a b = true)
    (store.filter pred)
  exact h.imp (fun hab => by simpa [leB] using hab)

/-- Under the separation hypothesis (spec §3: the identity tie-break
field makes distinct rows compare strictly), the sorted matching list is
strictly sorted. -/
theorem sortedMatching_pairwise_lt (store : List Record) (pred : Record → Bool)
    (s : SortSpec)
    (hsep : List.Pairwise (fun a b => cmps s a b ≠ Ordering.eq)
      (store.filter pred)) :
    List.Pairwise (ltP s) (sortedMatching store pred s) := by
  have hperm := sortedMatching_perm store pred s
  have hsymm : ∀ {a b : Record},
      (fun a b => cmps s a b ≠ Ordering.eq) a b →
      (fun a b => cmps s a b ≠ Ordering.eq) b a := by
    intro a b hab hba
    apply hab
    rw [← cmps_swap, hba]
    rfl
  have hsep' : List.Pairwise (fun a b => cmps s a b ≠ Ordering.eq)
      (sortedMatching store pred s) :=
    (hperm.pairwise_iff hsymm).mpr hsep
  have hle := sortedMatching_pairwise_le store pred s
  refine (hle.and hsep').imp ?_
  intro a b hab
  obtain ⟨h1, h2⟩ := hab
  cases h : cmps s a b with
  | lt => exact h
  | eq => exact absurd h h2
  | gt => exact absurd h h1

/-! ### The resolver on a forward walk -/

/-- On the forward walk (no requested direction, or the direction equal
to the primary order) the resolver scans with sorter `s`, never inverts,
and takes the ascending orientation of `s` as hint. -/
theorem resolve_walk (s : SortSpec)
    (ho : primaryOrder s = 1 ∨ primaryOrder s = -1) (d? : Option Int)
    (hd : d? = Option.none ∨ d? = Option.some (primaryOrder s)) :
    resolve s d? = { order := primaryOrder s, direction := primaryOrder s,
                     natural := decide (primaryOrder s = 1),
                     hint := if primaryOrder s = 1 then s else invert s,
                     inv := false, sorter := s } := by
  rcases ho with h | h <;> rcases hd with hd | hd <;> subst hd <;>
    simp [resolve, h]

theorem swap_lt_iff (x : Ordering) : x.swap = Ordering.lt ↔ x = Ordering.gt := by
  cases x <;> simp [Ordering.swap]

theorem take_succ_getElem {α : Type} (T : List α) (n : Nat) (h : n < T.length) :
    T.take (n + 1) = T.take n ++ [T.get ⟨n, h⟩] := by
  rw [List.take_succ]
  simp [List.getElem?_eq_getElem h]

/-! ### One page of the forward walk, ascending primary order -/

/-- Shape of one `find` call during the forward walk of an ascending
sort: the store filter yields exactly the suffix `T` of the sorted
matching list, the page is `T.take n`, and the next link (if any) holds
a cursor built from the overflow row `T.get n`. -/
theorem find_page_asc (store : List Record) (sem : Nat → Record → Bool) (q : Nat)
    (s : SortSpec) (n : Nat) (ho : primaryOrder s = 1) (hn : 1 ≤ n)
    (hstrict : List.Pairwise (ltP s) (sortedMatching store (sem q) s))
    (A T : List Record)
    (hsplit : sortedMatching store (sem q) s = A ++ T)
    (c? : Option Record) (d? : Option Int)
    (hd : d? = Option.none ∨ d? = Option.some 1)
    (hcur : (c? = Option.none ∧ A = []) ∨
            (∃ h T', T = h :: T' ∧ c? = Option.some (cursor s h))) :
    find store sem q { query := q, sort := s, count := n, cursor := c?,
                       direction := d?, fields := Option.none }
      = Except.ok (T.take n,
          c?.map (fun c => { query := q, sort := s, cursor := c, direction := -1 }),
          if hT : n < T.length
          then Option.some { query := q, sort := s,
                             cursor := cursor s (T.get ⟨n, hT⟩), direction := 1 }
          else Option.none) := by
  have hd' : d? = Option.none ∨ d? = Option.some (primaryOrder s) := by
    rcases hd with h | h
    · exact Or.inl h
    · rw [ho]; exact Or.inr h
  have hres : resolve s d? =
      { order := 1, direction := 1, natural := true, hint := s,
        inv := false, sorter := s } := by
    rw [resolve_walk s (Or.inl ho) d? hd', ho]
    rfl
  have hrows : storeExec store (sem q) s s (boundOf true c?) (n + 1)
      = T.take (n + 1) := by
    rcases hcur with ⟨hc, hA⟩ | ⟨h, T', hT, hc⟩
    · subst hc
      subst hA
      rw [storeExec_eq]
      have : boundKeep s (boundOf true Option.none) = (fun _ : Record => true) := rfl
      rw [this, List.filter_true, hsplit, List.nil_append]
    · subst hc
      subst hT
      rw [storeExec_eq]
      have hb : boundOf true (Option.some (cursor s h)) = Bound.min (cursor s h) := rfl
      rw [hb]
      have hcongr : (sortedMatching store (sem q) s).filter
            (boundKeep s (Bound.min (cursor s h)))
          = (sortedMatching store (sem q) s).filter
            (fun r => decide (cmps s h r ≠ Ordering.gt)) := by
        apply List.filter_congr
        intro a _
        simp only [boundKeep]
        rw [cursor_cmps_left]
      rw [hcongr, hsplit]
      rw [hsplit] at hstrict
      rw [filter_min_suffix s A T' h hstrict]
  have hn1 : ¬ ((n : Nat) < 1) := by omega
  simp only [find, hn1, if_false, hres]
  rw [hrows]
  by_cases hlen : n < T.length
  · have htake : T.take (n + 1) = T.take n ++ [T.get ⟨n, hlen⟩] :=
      take_succ_getElem T n hlen
    have hlen1 : (T.take (n + 1)).length = n + 1 := by
      rw [List.length_take]
      omega
    simp only [assemble, hlen1, if_pos rfl, dif_pos hlen]
    rw [htake, List.getLastD_concat, List.dropLast_concat]
    rfl
  · have hTn : T.length ≤ n := by omega
    have htk : T.take (n + 1) = T := List.take_of_length_le (by omega)
    have hlen1 : (T.take (n + 1)).length ≠ n + 1 := by
      rw [htk]
      omega
    simp only [assemble, hlen1, if_false, dif_neg hlen]
    rw [htk, List.take_of_length_le hTn]
    rfl

theorem swap_gt_iff (x : Ordering) : x.swap = Ordering.gt ↔ x = Ordering.lt := by
  cases x <;> simp [Ordering.swap]

/-! ### One page of the forward walk, descending primary order -/

/-- Shape of one `find` call during the forward walk of a descending
sort: the scan is non-natural, the store filter again yields exactly the
suffix `T` of the sorted matching list (sorted by the caller's own
sorter), the page is `T.take n`, and the next link (if any) holds a
cursor built from the last row kept on the page, `T.get (n - 1)`. -/
theorem find_page_desc (store : List Record) (sem : Nat → Record → Bool) (q : Nat)
    (s : SortSpec) (n : Nat) (ho : primaryOrder s = -1) (hv : ValidOrders s)
    (hn : 1 ≤ n)
    (hstrict : List.Pairwise (ltP s) (sortedMatching store (sem q) s))
    (A T : List Record)
    (hsplit : sortedMatching store (sem q) s = A ++ T)
    (c? : Option Record) (d? : Option Int)
    (hd : d? = Option.none ∨ d? = Option.some (-1))
    (hcur : (c? = Option.none ∧ A = []) ∨
            (∃ h' A', A = A' ++ [h'] ∧ c? = Option.some (cursor (invert s) h'))) :
    find store sem q { query := q, sort := s, count := n, cursor := c?,
                       direction := d?, fields := Option.none }
      = Except.ok (T.take n,
          c?.map (fun c => { query := q, sort := s, cursor := c, direction := 1 }),
          if hT : n < T.length
          then Option.some { query := q, sort := s,
                             cursor := cursor (invert s) (T.get ⟨n - 1, by omega⟩),
                             direction := -1 }
          else Option.none) := by
  have hd' : d? = Option.none ∨ d? = Option.some (primaryOrder s) := by
    rcases hd with h | h
    · exact Or.inl h
    · rw [ho]; exact Or.inr h
  have hres : resolve s d? =
      { order := -1, direction := -1, natural := false, hint := invert s,
        inv := false, sorter := s } := by
    rw [resolve_walk s (Or.inr ho) d? hd', ho]
    rfl
  have hrows : storeExec store (sem q) s (invert s) (boundOf false c?) (n + 1)
      = T.take (n + 1) := by
    rcases hcur with ⟨hc, hA⟩ | ⟨h', A', hA, hc⟩
    · subst hc
      subst hA
      rw [storeExec_eq]
      have : boundKeep (invert s) (boundOf false Option.none)
          = (fun _ : Record => true) := rfl
      rw [this, List.filter_true, hsplit, List.nil_append]
    · subst hc
      subst hA
      rw [storeExec_eq]
      have hb : boundOf false (Option.some (cursor (invert s) h'))
          = Bound.max (cursor (invert s) h') := rfl
      rw [hb]
      have hsplit' : sortedMatching store (sem q) s = A' ++ h' :: T := by
        rw [hsplit, List.append_assoc, List.singleton_append]
      have hcongr : (sortedMatching store (sem q) s).filter
            (boundKeep (invert s) (Bound.max (cursor (invert s) h')))
          = (sortedMatching store (sem q) s).filter
            (fun r => decide (cmps s h' r = Ordering.lt)) := by
        apply List.filter_congr
        intro a _
        simp only [boundKeep]
        apply decide_eq_decide.mpr
        rw [cursor_cmps_right, cmps_invert s hv, swap_lt_iff, ← swap_gt_iff,
          cmps_swap]
      rw [hcongr, hsplit']
      rw [hsplit'] at hstrict
      rw [filter_gt_suffix s A' T h' hstrict]
  have hn1 : ¬ ((n : Nat) < 1) := by omega
  simp only [find, hn1, if_false, hres]
  rw [hrows]
  by_cases hlen : n < T.length
  · have htake : T.take (n + 1) = T.take n ++ [T.get ⟨n, hlen⟩] :=
      take_succ_getElem T n hlen
    have hlen1 : (T.take (n + 1)).length = n + 1 := by
      rw [List.length_take]
      omega
    have hlast : (T.take n).getLastD [] = T.get ⟨n - 1, by omega⟩ := by
      have hnn : n - 1 + 1 = n := by omega
      conv_lhs => rw [← hnn]
      rw [take_succ_getElem T (n - 1) (by omega), List.getLastD_concat]
    simp only [assemble, hlen1, if_pos rfl, dif_pos hlen]
    rw [htake, List.dropLast_concat, hlast]
    rfl
  · have hTn : T.length ≤ n := by omega
    have htk : T.take (n + 1) = T := List.take_of_length_le (by omega)
    have hlen1 : (T.take (n + 1)).length ≠ n + 1 := by
      rw [htk]
      omega
    simp only [assemble, hlen1, if_false, dif_neg hlen]
    rw [htk, List.take_of_length_le hTn]
    rfl

/-! ### The full forward walk -/

/-- Forward walk, ascending primary order: starting anywhere in the
sorted matching list (characterised by the cursor invariant), the walk
returns exactly the remaining suffix. -/
theorem walkAux_asc (store : List Record) (sem : Nat → Record → Bool) (q : Nat)
    (s : SortSpec) (n : Nat) (ho : primaryOrder s = 1) (hn : 1 ≤ n)
    (hstrict : List.Pairwise (ltP s) (sortedMatching store (sem q) s)) :
    ∀ (fuel : Nat) (A T : List Record) (c? : Option Record) (d? : Option Int),
      sortedMatching store (sem q) s = A ++ T →
      ((c? = Option.none ∧ A = []) ∨
        (∃ h T', T = h :: T' ∧ c? = Option.some (cursor s h))) →
      (d? = Option.none ∨ d? = Option.some 1) →
      T.length + 1 ≤ fuel →
      walkAux store sem q fuel
        { query := q, sort := s, count := n, cursor := c?, direction := d?,
          fields := Option.none } = Option.some T := by
  intro fuel
  induction fuel with
  | zero =>
    intro A T c? d? _ _ _ hf
    omega
  | succ m ih =>
    intro A T c? d? hsplit hcur hd hf
    have hpage := find_page_asc store sem q s n ho hn hstrict A T hsplit c? d? hd hcur
    by_cases hlen : n < T.length
    · simp only [walkAux, hpage, dif_pos hlen]
      have hstep := ih (A ++ T.take n) (T.drop n)
        (Option.some (cursor s (T.get ⟨n, hlen⟩))) (Option.some 1)
        (by rw [List.append_assoc, List.take_append_drop]; exact hsplit)
        (Or.inr ⟨T.get ⟨n, hlen⟩, T.drop (n + 1), by
          rw [List.drop_eq_getElem_cons hlen]
          simp, rfl⟩)
        (Or.inr rfl)
        (by
          have hdl : (T.drop n).length = T.length - n := List.length_drop n T
          omega)
      simp only [Link.toReq]
      rw [hstep]
      simp [List.take_append_drop]
    · simp only [walkAux, hpage, dif_neg hlen]
      rw [List.take_of_length_le (by omega)]

/-- Forward walk, descending primary order: same statement with the
descending invariant (the cursor names the last row already emitted). -/
theorem walkAux_desc (store : List Record) (sem : Nat → Record → Bool) (q : Nat)
    (s : SortSpec) (n : Nat) (ho : primaryOrder s = -1) (hv : ValidOrders s)
    (hn : 1 ≤ n)
    (hstrict : List.Pairwise (ltP s) (sortedMatching store (sem q) s)) :
    ∀ (fuel : Nat) (A T : List Record) (c? : Option Record) (d? : Option Int),
      sortedMatching store (sem q) s = A ++ T →
      ((c? = Option.none ∧ A = []) ∨
        (∃ h' A', A = A' ++ [h'] ∧ c? = Option.some (cursor (invert s) h'))) →
      (d? = Option.none ∨ d? = Option.some (-1)) →
      T.length + 1 ≤ fuel →
      walkAux store sem q fuel
        { query := q, sort := s, count := n, cursor := c?, direction := d?,
          fields := Option.none } = Option.some T := by
  intro fuel
  induction fuel with
  | zero =>
    intro A T c? d? _ _ _ hf
    omega
  | succ m ih =>
    intro A T c? d? hsplit hcur hd hf
    have hpage := find_page_desc store sem q s n ho hv hn hstrict A T hsplit c? d? hd hcur
    by_cases hlen : n < T.length
    · simp only [walkAux, hpage, dif_pos hlen]
      have hnn : n - 1 + 1 = n := by omega
      have htkn : T.take n = T.take (n - 1) ++ [T.get ⟨n - 1, by omega⟩] := by
        conv_lhs => rw [← hnn]
        rw [take_succ_getElem T (n - 1) (by omega)]
      have hstep := ih (A ++ T.take n) (T.drop n)
        (Option.some (cursor (invert s) (T.get ⟨n - 1, by omega⟩))) (Option.some (-1))
        (by rw [List.append_assoc, List.take_append_drop]; exact hsplit)
        (Or.inr ⟨T.get ⟨n - 1, by omega⟩, A ++ T.take (n - 1), by
          rw [List.append_assoc]
          rw [← htkn], rfl⟩)
        (Or.inr rfl)
        (by
          have hdl : (T.drop n).length = T.length - n := List.length_drop n T
          omega)
      simp only [Link.toReq]
      rw [hstep]
      simp [List.take_append_drop]
    · simp only [walkAux, hpage, dif_neg hlen]
      rw [List.take_of_length_le (by omega)]

/-! ### Claim theorems -/

/-- C1: For every finite store, filter, SortSpec and positive count,
starting `find` with cursor = null (and no requested direction) and
repeatedly issuing the request held in the returned `next` link until
`next` is null terminates and visits every record matching the filter
exactly once, in the order dictated by the SortSpec.  The hypotheses are
the spec's §3 invariants: a SortSpec has a primary order of `±1`, all
orders are `±1`, and the trailing identity tie-break makes distinct
matching records compare strictly (`cmps s a b ≠ eq`); the page size is
positive (§7).  `store.length + 1` pages always suffice. -/
theorem c1_forward_walk_exhaustive (store : List Record)
    (sem : Nat → Record → Bool) (q : Nat) (s : SortSpec) (n : Nat)
    (ho : primaryOrder s = 1 ∨ primaryOrder s = -1)
    (hv : ValidOrders s) (hn : 1 ≤ n)
    (hsep : List.Pairwise (fun a b => cmps s a b ≠ Ordering.eq)
      (store.filter (sem q))) :
    walkAux store sem q (store.length + 1)
        { query := q, sort := s, count := n, cursor := Option.none,
          direction := Option.none, fields := Option.none }
      = Option.some (sortedMatching store (sem q) s)
    ∧ List.Perm (sortedMatching store (sem q) s) (store.filter (sem q))
    ∧ List.Pairwise (ltP s) (sortedMatching store (sem q) s) := by
  have hstrict := sortedMatching_pairwise_lt store (sem q) s hsep
  have hperm := sortedMatching_perm store (sem q) s
  have hlenSS : (sortedMatching store (sem q) s).length ≤ store.length := by
    rw [hperm.length_eq]
    exact List.length_filter_le _ _
  refine ⟨?_, hperm, hstrict⟩
  rcases ho with h | h
  · exact walkAux_asc store sem q s n h hn hstrict (store.length + 1)
      [] (sortedMatching store (sem q) s) Option.none Option.none
      (by simp) (Or.inl ⟨rfl, rfl⟩) (Or.inl rfl) (by omega)
  · exact walkAux_desc store sem q s n h hv hn hstrict (store.length + 1)
      [] (sortedMatching store (sem q) s) Option.none Option.none
      (by simp) (Or.inl ⟨rfl, rfl⟩) (Or.inl rfl) (by omega)

/-- Witness for C1 at a concrete input: three records, ascending
single-field sort with page size 2; the walk returns the sorted matching
list. -/
theorem c1_forward_walk_exhaustive_witness :
    ((primaryOrder [(1, 1)] = 1 ∨ primaryOrder [(1, 1)] = -1)
      ∧ ValidOrders [(1, 1)] ∧ 1 ≤ 2
      ∧ List.Pairwise (fun a b => cmps [(1, 1)] a b ≠ Ordering.eq)
          (List.filter ((fun (_ : Nat) (_ : Record) => true) 0)
            [[(1, 2)], [(1, 1)], [(1, 3)]]))
    ∧ (walkAux [[(1, 2)], [(1, 1)], [(1, 3)]]
          (fun (_ : Nat) (_ : Record) => true) 0 4
          { query := 0, sort := [(1, 1)], count := 2, cursor := Option.none,
            direction := Option.none, fields := Option.none }
        = Option.some (sortedMatching [[(1, 2)], [(1, 1)], [(1, 3)]]
            ((fun (_ : Nat) (_ : Record) => true) 0) [(1, 1)])
      ∧ List.Perm (sortedMatching [[(1, 2)], [(1, 1)], [(1, 3)]]
            ((fun (_ : Nat) (_ : Record) => true) 0) [(1, 1)])
          (List.filter ((fun (_ : Nat) (_ : Record) => true) 0)
            [[(1, 2)], [(1, 1)], [(1, 3)]])
      ∧ List.Pairwise (ltP [(1, 1)])
          (sortedMatching [[(1, 2)], [(1, 1)], [(1, 3)]]
            ((fun (_ : Nat) (_ : Record) => true) 0) [(1, 1)])) :=
  ⟨⟨by decide, by decide, by decide, by decide⟩,
    c1_forward_walk_exhaustive [[(1, 2)], [(1, 1)], [(1, 3)]]
      (fun _ _ => true) 0 [(1, 1)] 2 (by decide) (by decide) (by decide)
      (by decide)⟩

/-- C2 counterexample: with records [1,2,3,4,5] on field 1, count 2,
ascending sort, the first page's `next` cursor is `{field: 3}` (built
from the removed overflow row), not `{field: 2}` as the claim states. -/
theorem c2_concrete_scenario_counterexample :
    ¬ ((nextLink (find [[(1, 3)], [(1, 1)], [(1, 5)], [(1, 2)], [(1, 4)]]
          (fun _ _ => true) 0
          { query := 0, sort := [(1, 1)], count := 2, cursor := Option.none,
            direction := Option.none, fields := Option.none })).map
        (fun lk => lk.cursor) = Option.some [(1, 2)]) := by
  decide

/-- C2 amended: same scenario, with the cursors the code actually
produces.  Page 1 = [1,2] with next.cursor = {field: 3} (the removed
overflow row, used as an inclusive lower bound); issuing that next
returns page 2 = [3,4] whose previous link resumes page 1 exactly
(records and links) and whose next.cursor = {field: 5}; issuing that
next returns page 3 = [5] with next = null and a previous link that
resumes page 2 exactly. -/
theorem c2_concrete_scenario :
    find [[(1, 3)], [(1, 1)], [(1, 5)], [(1, 2)], [(1, 4)]]
        (fun _ _ => true) 0
        { query := 0, sort := [(1, 1)], count := 2, cursor := Option.none,
          direction := Option.none, fields := Option.none }
      = Except.ok ([[(1, 1)], [(1, 2)]], Option.none,
          Option.some { query := 0, sort := [(1, 1)], cursor := [(1, 3)],
                        direction := 1 })
    ∧ find [[(1, 3)], [(1, 1)], [(1, 5)], [(1, 2)], [(1, 4)]]
        (fun _ _ => true) 0
        (Link.toReq { query := 0, sort := [(1, 1)], cursor := [(1, 3)],
                      direction := 1 } 2)
      = Except.ok ([[(1, 3)], [(1, 4)]],
          Option.some { query := 0, sort := [(1, 1)], cursor := [(1, 3)],
                        direction := -1 },
          Option.some { query := 0, sort := [(1, 1)], cursor := [(1, 5)],
                        direction := 1 })
    ∧ find [[(1, 3)], [(1, 1)], [(1, 5)], [(1, 2)], [(1, 4)]]
        (fun _ _ => true) 0
        (Link.toReq { query := 0, sort := [(1, 1)], cursor := [(1, 3)],
                      direction := -1 } 2)
      = Except.ok ([[(1, 1)], [(1, 2)]], Option.none,
          Option.some { query := 0, sort := [(1, 1)], cursor := [(1, 3)],
                        direction := 1 })
    ∧ find [[(1, 3)], [(1, 1)], [(1, 5)], [(1, 2)], [(1, 4)]]
        (fun _ _ => true) 0
        (Link.toReq { query := 0, sort := [(1, 1)], cursor := [(1, 5)],
                      direction := 1 } 2)
      = Except.ok ([[(1, 5)]],
          Option.some { query := 0, sort := [(1, 1)], cursor := [(1, 5)],
                        direction := -1 },
          Option.none)
    ∧ find [[(1, 3)], [(1, 1)], [(1, 5)], [(1, 2)], [(1, 4)]]
        (fun _ _ => true) 0
        (Link.toReq { query := 0, sort := [(1, 1)], cursor := [(1, 5)],
                      direction := -1 } 2)
      = Except.ok ([[(1, 3)], [(1, 4)]],
          Option.some { query := 0, sort := [(1, 1)], cursor := [(1, 3)],
                        direction := -1 },
          Option.some { query := 0, sort := [(1, 1)], cursor := [(1, 5)],
                        direction := 1 }) :=
  ⟨rfl, rfl, rfl, rfl, rfl⟩

/-- C3 counterexample: on a non-natural scan (ascending sort walked
descending) over rows [1,2,3] with count 2, the store returns [3,2,1];
the removed overflow row is 1, but the scan-forward link (here `left`,
surfaced as `previous`) carries cursor `{field: 2}` — the last row kept,
not the removed row. -/
theorem c3_overflow_trim_counterexample :
    ¬ ((prevLink (find [[(1, 1)], [(1, 2)], [(1, 3)]] (fun _ _ => true) 0
          { query := 0, sort := [(1, 1)], count := 2, cursor := Option.none,
            direction := Option.some (-1), fields := Option.none })).map
        (fun lk => lk.cursor)
      = Option.some (cursor [(1, 1)] [(1, 1)])) := by
  decide

/-- C3 amended: when the store returns exactly count+1 rows, the last
fetched row is removed before the records are returned (so exactly count
records remain) in both scan directions; the scan-forward link's cursor
is built from the removed row's hint-field values in the natural
direction, but from the last remaining row's hint-field values in the
non-natural direction (which is exactly what the exclusive `max` bound
requires for an exact resumption). -/
theorem c3_overflow_trim (queried : Nat) (search : SearchReq) (r : Resolved)
    (rows : List Record) (hn : 1 ≤ search.count)
    (hlen : rows.length = search.count + 1) :
    (assemble queried search r rows).1
        = (if r.inv then rows.dropLast.reverse else rows.dropLast)
    ∧ (assemble queried search r rows).1.length = search.count
    ∧ (if r.natural then (if r.order = 1 then (assemble queried search r rows).2.2
                          else (assemble queried search r rows).2.1)
       else (if r.order = 1 then (assemble queried search r rows).2.1
             else (assemble queried search r rows).2.2))
      = Option.some { query := queried, sort := search.sort,
                      cursor := cursor r.hint
                        (if r.natural then rows.getLastD []
                         else rows.dropLast.getLastD []),
                      direction := if r.natural then (1 : Int) else -1 } := by
  refine ⟨?_, ?_, ?_⟩
  · simp [assemble, hlen]
  · by_cases hi : r.inv <;>
      simp [assemble, hlen, hi, List.length_dropLast]
  · by_cases hna : r.natural <;> by_cases hor : r.order = 1 <;>
      simp [assemble, hlen, hna, hor]

/-- Witness for C3 at a concrete non-natural overflow page. -/
theorem c3_overflow_trim_witness :
    (1 ≤ ({ query := 0, sort := [(1, 1)], count := 2, cursor := Option.none, direction := Option.some (-1), fields := Option.none } : SearchReq).count
      ∧ ([[(1, 3)], [(1, 2)], [(1, 1)]] : List Record).length = ({ query := 0, sort := [(1, 1)], count := 2, cursor := Option.none, direction := Option.some (-1), fields := Option.none } : SearchReq).count + 1)
    ∧ ((assemble 0 { query := 0, sort := [(1, 1)], count := 2, cursor := Option.none, direction := Option.some (-1), fields := Option.none } (resolve [(1, 1)] (Option.some (-1))) ([[(1, 3)], [(1, 2)], [(1, 1)]] : List Record)).1
        = (if (resolve [(1, 1)] (Option.some (-1))).inv then ([[(1, 3)], [(1, 2)], [(1, 1)]] : List Record).dropLast.reverse else ([[(1, 3)], [(1, 2)], [(1, 1)]] : List Record).dropLast)
      ∧ (assemble 0 { query := 0, sort := [(1, 1)], count := 2, cursor := Option.none, direction := Option.some (-1), fields := Option.none } (resolve [(1, 1)] (Option.some (-1))) ([[(1, 3)], [(1, 2)], [(1, 1)]] : List Record)).1.length = ({ query := 0, sort := [(1, 1)], count := 2, cursor := Option.none, direction := Option.some (-1), fields := Option.none } : SearchReq).count
      ∧ (if (resolve [(1, 1)] (Option.some (-1))).natural
         then (if (resolve [(1, 1)] (Option.some (-1))).order = 1 then (assemble 0 { query := 0, sort := [(1, 1)], count := 2, cursor := Option.none, direction := Option.some (-1), fields := Option.none } (resolve [(1, 1)] (Option.some (-1))) ([[(1, 3)], [(1, 2)], [(1, 1)]] : List Record)).2.2 else (assemble 0 { query := 0, sort := [(1, 1)], count := 2, cursor := Option.none, direction := Option.some (-1), fields := Option.none } (resolve [(1, 1)] (Option.some (-1))) ([[(1, 3)], [(1, 2)], [(1, 1)]] : List Record)).2.1)
         else (if (resolve [(1, 1)] (Option.some (-1))).order = 1 then (assemble 0 { query := 0, sort := [(1, 1)], count := 2, cursor := Option.none, direction := Option.some (-1), fields := Option.none } (resolve [(1, 1)] (Option.some (-1))) ([[(1, 3)], [(1, 2)], [(1, 1)]] : List Record)).2.1 else (assemble 0 { query := 0, sort := [(1, 1)], count := 2, cursor := Option.none, direction := Option.some (-1), fields := Option.none } (resolve [(1, 1)] (Option.some (-1))) ([[(1, 3)], [(1, 2)], [(1, 1)]] : List Record)).2.2))
        = Option.some { query := 0, sort := ({ query := 0, sort := [(1, 1)], count := 2, cursor := Option.none, direction := Option.some (-1), fields := Option.none } : SearchReq).sort, cursor := cursor (resolve [(1, 1)] (Option.some (-1))).hint (if (resolve [(1, 1)] (Option.some (-1))).natural then ([[(1, 3)], [(1, 2)], [(1, 1)]] : List Record).getLastD [] else ([[(1, 3)], [(1, 2)], [(1, 1)]] : List Record).dropLast.getLastD []), direction := if (resolve [(1, 1)] (Option.some (-1))).natural then (1 : Int) else -1 }) :=
  ⟨⟨by decide, by decide⟩,
    c3_overflow_trim 0 { query := 0, sort := [(1, 1)], count := 2, cursor := Option.none, direction := Option.some (-1), fields := Option.none } (resolve [(1, 1)] (Option.some (-1))) ([[(1, 3)], [(1, 2)], [(1, 1)]] : List Record) (by decide) (by decide)⟩

/-- C4 counterexample: for the ascending sort `[(1, 1)]` with requested
direction `-1`, the claim's resolver (`natural = (direction == primary
order)`, hint negated when not natural) demands hint `[(1, -1)]`; the
code keeps hint = sort = `[(1, 1)]` (the hint direction only ever
depends on the primary order, never on the requested direction). -/
theorem c4_resolver_counterexample :
    ¬ ((resolve [(1, 1)] (Option.some (-1))).hint = invert [(1, 1)]) := by
  decide

/-- C4 amended: the resolver computes the effective direction (the
requested one, defaulting to the primary order), and then
`natural = (direction == +1)` — not `(direction == primary order)`;
the hint is the ascending orientation of the sort (sort itself when the
primary order is +1, its field-by-field negation when it is −1),
independent of the direction; the result-sorter is the sort when the
direction equals the primary order and the negated sort otherwise; and
`invert` is set exactly when direction and primary order differ. -/
theorem c4_resolver (s : SortSpec) (d? : Option Int)
    (ho : primaryOrder s = 1 ∨ primaryOrder s = -1)
    (hd : d? = Option.none ∨ d? = Option.some 1 ∨ d? = Option.some (-1)) :
    (resolve s d?).order = primaryOrder s
    ∧ (resolve s d?).direction
        = (match d? with
           | Option.none => primaryOrder s
           | Option.some d => d)
    ∧ (resolve s d?).natural = decide ((resolve s d?).direction = 1)
    ∧ (resolve s d?).hint = (if primaryOrder s = 1 then s else invert s)
    ∧ (resolve s d?).sorter
        = (if (resolve s d?).direction = primaryOrder s then s else invert s)
    ∧ (resolve s d?).inv
        = decide ((resolve s d?).direction ≠ primaryOrder s) := by
  rcases ho with h | h <;>
    rcases hd with hd | hd | hd <;> subst hd <;>
      simp [resolve, h]

/-- Witness for C4: descending primary order with requested direction
`+1` (the backward walk of a descending listing). -/
theorem c4_resolver_witness :
    ((primaryOrder [(1, -1)] = 1 ∨ primaryOrder [(1, -1)] = -1)
      ∧ (Option.some (1 : Int) = Option.none
          ∨ Option.some (1 : Int) = Option.some 1
          ∨ Option.some (1 : Int) = Option.some (-1)))
    ∧ ((resolve [(1, -1)] (Option.some 1)).order = primaryOrder [(1, -1)]
      ∧ (resolve [(1, -1)] (Option.some 1)).direction
          = (match Option.some (1 : Int) with
             | Option.none => primaryOrder [(1, -1)]
             | Option.some d => d)
      ∧ (resolve [(1, -1)] (Option.some 1)).natural
          = decide ((resolve [(1, -1)] (Option.some 1)).direction = 1)
      ∧ (resolve [(1, -1)] (Option.some 1)).hint
          = (if primaryOrder [(1, -1)] = 1 then [(1, -1)] else invert [(1, -1)])
      ∧ (resolve [(1, -1)] (Option.some 1)).sorter
          = (if (resolve [(1, -1)] (Option.some 1)).direction
                  = primaryOrder [(1, -1)]
             then [(1, -1)] else invert [(1, -1)])
      ∧ (resolve [(1, -1)] (Option.some 1)).inv
          = decide ((resolve [(1, -1)] (Option.some 1)).direction
              ≠ primaryOrder [(1, -1)])) :=
  ⟨⟨by decide, by decide⟩,
    c4_resolver [(1, -1)] (Option.some 1) (by decide) (by decide)⟩

/-- Every record a successful `find` returns passed the store's range
bound (records are drawn from the bounded, truncated store response). -/
theorem mem_find_records_boundKeep (store : List Record)
    (sem : Nat → Record → Bool) (queried : Nat) (search : SearchReq)
    (hn : 1 ≤ search.count) :
    ∀ x ∈ recordsOf (find store sem queried search),
      boundKeep (resolve search.sort search.direction).hint
        (boundOf (resolve search.sort search.direction).natural search.cursor)
        x = true := by
  intro x hx
  have hc : ¬ (search.count < 1) := by omega
  simp only [recordsOf, find, if_neg hc, assemble] at hx
  have hx' : x ∈ storeExec store (sem search.query)
      (resolve search.sort search.direction).sorter
      (resolve search.sort search.direction).hint
      (boundOf (resolve search.sort search.direction).natural search.cursor)
      (search.count + 1) := by
    split_ifs at hx with h1 h2 h3
    · exact (List.dropLast_sublist _).subset (List.mem_reverse.mp hx)
    · exact List.mem_reverse.mp hx
    · exact (List.dropLast_sublist _).subset hx
    · exact hx
  have hx2 : x ∈ (sortedMatching store (sem search.query)
      (resolve search.sort search.direction).sorter).filter
        (boundKeep (resolve search.sort search.direction).hint
          (boundOf (resolve search.sort search.direction).natural
            search.cursor)) := by
    rw [storeExec_eq] at hx'
    exact (List.take_sublist _ _).subset hx'
  exact (List.mem_filter.mp hx2).2

/-- C5 counterexample: on a non-natural scan, the only matching record
sits exactly at the cursor (so it lies inside the claimed *inclusive*
upper bound), yet it is excluded from the page: the `max` bound is
exclusive.  Store = [{field 1: 3}], cursor = {field 1: 3}, descending
direction over an ascending sort, count 1: zero records come back. -/
theorem c5_range_bounds_counterexample :
    recordsOf (find [[(1, 3)]] (fun _ _ => true) 0
        { query := 0, sort := [(1, 1)], count := 1,
          cursor := Option.some [(1, 3)], direction := Option.some (-1),
          fields := Option.none }) = []
    ∧ List.filter ((fun (_ : Nat) (_ : Record) => true) 0) [[(1, 3)]]
        = [[(1, 3)]]
    ∧ cmps (resolve [(1, 1)] (Option.some (-1))).hint [(1, 3)] [(1, 3)]
        ≠ Ordering.gt := by
  refine ⟨rfl, rfl, by decide⟩

/-- C5 amended: no cursor, no bound; a cursor on a natural scan becomes
the `min` bound, an *inclusive* lower bound (every returned record is at
or above the cursor in hint order); a cursor on a non-natural scan
becomes the `max` bound, an *exclusive* upper bound (every returned
record is strictly below the cursor in hint order). -/
theorem c5_range_bounds (store : List Record) (sem : Nat → Record → Bool)
    (queried : Nat) (search : SearchReq) (hn : 1 ≤ search.count) :
    (search.cursor = Option.none →
      boundOf (resolve search.sort search.direction).natural search.cursor
        = Bound.free)
    ∧ (∀ c, search.cursor = Option.some c →
        (resolve search.sort search.direction).natural = true →
        boundOf (resolve search.sort search.direction).natural search.cursor
            = Bound.min c
        ∧ ∀ x ∈ recordsOf (find store sem queried search),
            cmps (resolve search.sort search.direction).hint c x
              ≠ Ordering.gt)
    ∧ (∀ c, search.cursor = Option.some c →
        (resolve search.sort search.direction).natural = false →
        boundOf (resolve search.sort search.direction).natural search.cursor
            = Bound.max c
        ∧ ∀ x ∈ recordsOf (find store sem queried search),
            cmps (resolve search.sort search.direction).hint x c
              = Ordering.lt) := by
  refine ⟨?_, ?_, ?_⟩
  · intro h
    rw [h]
    rfl
  · intro c hc hnat
    constructor
    · rw [hc]
      simp [boundOf, hnat]
    · intro x hx
      have hb := mem_find_records_boundKeep store sem queried search hn x hx
      rw [hc, hnat] at hb
      simpa [boundOf, boundKeep] using hb
  · intro c hc hnat
    constructor
    · rw [hc]
      simp [boundOf, hnat]
    · intro x hx
      have hb := mem_find_records_boundKeep store sem queried search hn x hx
      rw [hc, hnat] at hb
      simpa [boundOf, boundKeep] using hb

/-- Witness for C5 on a natural scan with a cursor: both bound equations
and the per-record inclusive-bound property, at a concrete store. -/
theorem c5_range_bounds_witness :
    (1 ≤ ({ query := 0, sort := [(1, 1)], count := 1,
            cursor := Option.some [(1, 2)], direction := Option.none,
            fields := Option.none } : SearchReq).count)
    ∧ ((({ query := 0, sort := [(1, 1)], count := 1,
           cursor := Option.some [(1, 2)], direction := Option.none,
           fields := Option.none } : SearchReq).cursor = Option.none →
        boundOf (resolve [(1, 1)] Option.none).natural
          (Option.some [(1, 2)]) = Bound.free)
      ∧ (∀ c, (Option.some [(1, 2)] : Option Record) = Option.some c →
          (resolve [(1, 1)] Option.none).natural = true →
          boundOf (resolve [(1, 1)] Option.none).natural
              (Option.some [(1, 2)]) = Bound.min c
          ∧ ∀ x ∈ recordsOf (find [[(1, 1)], [(1, 2)], [(1, 3)]]
              (fun _ _ => true) 0
              { query := 0, sort := [(1, 1)], count := 1,
                cursor := Option.some [(1, 2)], direction := Option.none,
                fields := Option.none }),
              cmps (resolve [(1, 1)] Option.none).hint c x ≠ Ordering.gt)
      ∧ (∀ c, (Option.some [(1, 2)] : Option Record) = Option.some c →
          (resolve [(1, 1)] Option.none).natural = false →
          boundOf (resolve [(1, 1)] Option.none).natural
              (Option.some [(1, 2)]) = Bound.max c
          ∧ ∀ x ∈ recordsOf (find [[(1, 1)], [(1, 2)], [(1, 3)]]
              (fun _ _ => true) 0
              { query := 0, sort := [(1, 1)], count := 1,
                cursor := Option.some [(1, 2)], direction := Option.none,
                fields := Option.none }),
              cmps (resolve [(1, 1)] Option.none).hint x c = Ordering.lt)) :=
  ⟨by decide,
    c5_range_bounds [[(1, 1)], [(1, 2)], [(1, 3)]] (fun _ _ => true) 0
      { query := 0, sort := [(1, 1)], count := 1,
        cursor := Option.some [(1, 2)], direction := Option.none,
        fields := Option.none } (by decide)⟩

/-- C6: whenever the original cursor is non-null, the page carries a
scan-backward link that reuses the original query object (`ctx.queried`),
the original sort, and the original cursor unchanged, with direction
flipped relative to the current scan; it sits on `previous` when the
scan is natural and the primary order is +1, on `next` when exactly one
of the two flips, and on `previous` again when both flip — i.e. the
left/right pair is mapped onto previous/next by the primary order. -/
theorem c6_backward_link (store : List Record) (sem : Nat → Record → Bool)
    (queried : Nat) (search : SearchReq) (c : Record)
    (hc : search.cursor = Option.some c) (hn : 1 ≤ search.count) :
    (if (resolve search.sort search.direction).natural
     then (if (resolve search.sort search.direction).order = 1
           then prevLink (find store sem queried search)
           else nextLink (find store sem queried search))
     else (if (resolve search.sort search.direction).order = 1
           then nextLink (find store sem queried search)
           else prevLink (find store sem queried search)))
      = Option.some { query := queried, sort := search.sort, cursor := c,
                      direction := if (resolve search.sort search.direction).natural
                                   then -1 else 1 } := by
  have hc1 : ¬ (search.count < 1) := by omega
  simp only [prevLink, nextLink, find, if_neg hc1, assemble, hc]
  by_cases hna : (resolve search.sort search.direction).natural <;>
    by_cases hor : (resolve search.sort search.direction).order = 1 <;>
      simp [hna, hor]

/-- Witness for C6: a cursor-bearing natural ascending request; the
backward link lands on `previous` with direction −1. -/
theorem c6_backward_link_witness :
    (({ query := 0, sort := [(1, 1)], count := 1,
        cursor := Option.some [(1, 2)], direction := Option.some 1,
        fields := Option.none } : SearchReq).cursor = Option.some [(1, 2)]
      ∧ 1 ≤ ({ query := 0, sort := [(1, 1)], count := 1,
               cursor := Option.some [(1, 2)], direction := Option.some 1,
               fields := Option.none } : SearchReq).count)
    ∧ (if (resolve [(1, 1)] (Option.some 1)).natural
       then (if (resolve [(1, 1)] (Option.some 1)).order = 1
             then prevLink (find [[(1, 1)], [(1, 2)], [(1, 3)]]
               (fun _ _ => true) 7
               { query := 0, sort := [(1, 1)], count := 1,
                 cursor := Option.some [(1, 2)], direction := Option.some 1,
                 fields := Option.none })
             else nextLink (find [[(1, 1)], [(1, 2)], [(1, 3)]]
               (fun _ _ => true) 7
               { query := 0, sort := [(1, 1)], count := 1,
                 cursor := Option.some [(1, 2)], direction := Option.some 1,
                 fields := Option.none }))
       else (if (resolve [(1, 1)] (Option.some 1)).order = 1
             then nextLink (find [[(1, 1)], [(1, 2)], [(1, 3)]]
               (fun _ _ => true) 7
               { query := 0, sort := [(1, 1)], count := 1,
                 cursor := Option.some [(1, 2)], direction := Option.some 1,
                 fields := Option.none })
             else prevLink (find [[(1, 1)], [(1, 2)], [(1, 3)]]
               (fun _ _ => true) 7
               { query := 0, sort := [(1, 1)], count := 1,
                 cursor := Option.some [(1, 2)], direction := Option.some 1,
                 fields := Option.none })))
      = Option.some { query := 7, sort := [(1, 1)], cursor := [(1, 2)],
                      direction := if (resolve [(1, 1)] (Option.some 1)).natural
                                   then -1 else 1 } :=
  ⟨⟨rfl, by decide⟩,
    c6_backward_link [[(1, 1)], [(1, 2)], [(1, 3)]] (fun _ _ => true) 7
      { query := 0, sort := [(1, 1)], count := 1,
        cursor := Option.some [(1, 2)], direction := Option.some 1,
        fields := Option.none } [(1, 2)] rfl (by decide)⟩

/-- In every resolver branch, the sorter is the sort itself when the
`invert` flag is clear, and the negated sort when it is set. -/
theorem resolve_sorter (s : SortSpec) (d? : Option Int) :
    (resolve s d?).sorter = (if (resolve s d?).inv then invert s else s) := by
  by_cases h : primaryOrder s = 1 <;> simp [resolve, h]

/-- The store response is sorted by the sorter it was asked for. -/
theorem storeExec_pairwise (store : List Record) (pred : Record → Bool)
    (sorter hint : SortSpec) (bound : Bound) (limit : Nat) :
    List.Pairwise (fun a b => cmps sorter a b ≠ Ordering.gt)
      (storeExec store pred sorter hint bound limit) := by
  have hp := sortedMatching_pairwise_le store pred sorter
  rw [storeExec_eq]
  exact hp.sublist ((List.take_sublist _ _).trans (List.filter_sublist _))

/-- C7: the record sequence a successful `find` returns is ordered by
the caller's originally requested SortSpec, whatever direction the store
physically scanned: the fetched, trimmed rows are reversed exactly when
the `invert` flag is set, and the result is always non-decreasing under
the requested sort. -/
theorem c7_output_order (store : List Record) (sem : Nat → Record → Bool)
    (queried : Nat) (search : SearchReq) (hn : 1 ≤ search.count)
    (hv : ValidOrders search.sort) :
    recordsOf (find store sem queried search)
        = (if (resolve search.sort search.direction).inv
           then (pageRows store sem search).reverse
           else pageRows store sem search)
    ∧ List.Pairwise (fun a b => cmps search.sort a b ≠ Ordering.gt)
        (recordsOf (find store sem queried search)) := by
  have hc1 : ¬ (search.count < 1) := by omega
  have h1 : recordsOf (find store sem queried search)
      = (if (resolve search.sort search.direction).inv
         then (pageRows store sem search).reverse
         else pageRows store sem search) := by
    simp only [recordsOf, find, if_neg hc1, assemble, pageRows, fetchedRows]
  refine ⟨h1, ?_⟩
  rw [h1]
  have hrows : List.Pairwise
      (fun a b => cmps (resolve search.sort search.direction).sorter a b
        ≠ Ordering.gt) (pageRows store sem search) := by
    have hall := storeExec_pairwise store (sem search.query)
      (resolve search.sort search.direction).sorter
      (resolve search.sort search.direction).hint
      (boundOf (resolve search.sort search.direction).natural search.cursor)
      (search.count + 1)
    unfold pageRows fetchedRows
    by_cases hl : (storeExec store (sem search.query)
        (resolve search.sort search.direction).sorter
        (resolve search.sort search.direction).hint
        (boundOf (resolve search.sort search.direction).natural search.cursor)
        (search.count + 1)).length = search.count + 1
    · simp only [hl, if_pos rfl]
      exact hall.sublist (List.dropLast_sublist _)
    · simp only [if_neg hl]
      exact hall
  by_cases hi : (resolve search.sort search.direction).inv
  · rw [if_pos hi]
    rw [resolve_sorter, if_pos hi] at hrows
    rw [List.pairwise_reverse]
    refine hrows.imp ?_
    intro a b hab
    rw [cmps_invert search.sort hv] at hab
    rw [← cmps_swap]
    exact hab
  · rw [if_neg hi]
    rw [resolve_sorter, if_neg hi] at hrows
    exact hrows

/-- Witness for C7 on a descending-direction request over an ascending
sort (`invert` set): records come back ascending all the same. -/
theorem c7_output_order_witness :
    (1 ≤ ({ query := 0, sort := [(1, 1)], count := 2,
            cursor := Option.none, direction := Option.some (-1),
            fields := Option.none } : SearchReq).count
      ∧ ValidOrders [(1, 1)])
    ∧ (recordsOf (find [[(1, 1)], [(1, 2)], [(1, 3)]] (fun _ _ => true) 0
          { query := 0, sort := [(1, 1)], count := 2,
            cursor := Option.none, direction := Option.some (-1),
            fields := Option.none })
        = (if (resolve [(1, 1)] (Option.some (-1))).inv
           then (pageRows [[(1, 1)], [(1, 2)], [(1, 3)]] (fun _ _ => true)
              { query := 0, sort := [(1, 1)], count := 2,
                cursor := Option.none, direction := Option.some (-1),
                fields := Option.none }).reverse
           else pageRows [[(1, 1)], [(1, 2)], [(1, 3)]] (fun _ _ => true)
              { query := 0, sort := [(1, 1)], count := 2,
                cursor := Option.none, direction := Option.some (-1),
                fields := Option.none })
      ∧ List.Pairwise (fun a b => cmps [(1, 1)] a b ≠ Ordering.gt)
          (recordsOf (find [[(1, 1)], [(1, 2)], [(1, 3)]] (fun _ _ => true) 0
            { query := 0, sort := [(1, 1)], count := 2,
              cursor := Option.none, direction := Option.some (-1),
              fields := Option.none }))) :=
  ⟨⟨by decide, by decide⟩,
    c7_output_order [[(1, 1)], [(1, 2)], [(1, 3)]] (fun _ _ => true) 0
      { query := 0, sort := [(1, 1)], count := 2,
        cursor := Option.none, direction := Option.some (-1),
        fields := Option.none } (by decide) (by decide)⟩

/-- C8 counterexample: descending sort, requested direction +1 (a
backward walk), cursor present, empty store.  The page is empty and
succeeds, but the cursor-derived link lands on `next`, not on
`previous` as the claim states: `next ≠ null` and `previous = null`. -/
theorem c8_empty_result_counterexample :
    ¬ (nextLink (find ([] : List Record) (fun _ _ => true) 0
        { query := 0, sort := [(1, -1)], count := 1,
          cursor := Option.some [(1, 5)], direction := Option.some 1,
          fields := Option.none }) = Option.none)
    ∧ prevLink (find ([] : List Record) (fun _ _ => true) 0
        { query := 0, sort := [(1, -1)], count := 1,
          cursor := Option.some [(1, 5)], direction := Option.some 1,
          fields := Option.none }) = Option.none := by
  exact ⟨by decide, rfl⟩

/-- C8 amended: when the store query matches zero rows, `find` succeeds
with an empty record list and no overflow link; the cursor-derived
(scan-backward) link, when a cursor was supplied, sits on `previous`
exactly when the scan direction agrees with the primary order (natural
with order +1, or non-natural with order −1) and on `next` otherwise;
the remaining slot is null, and both are null without a cursor. -/
theorem c8_empty_result (store : List Record) (sem : Nat → Record → Bool)
    (queried : Nat) (search : SearchReq) (hn : 1 ≤ search.count)
    (hzero : store.filter (sem search.query) = []) :
    find store sem queried search
      = Except.ok ([],
          (if (resolve search.sort search.direction).order = 1
           then (if (resolve search.sort search.direction).natural
                 then search.cursor.map (fun c =>
                   { query := queried, sort := search.sort, cursor := c,
                     direction := -1 })
                 else Option.none)
           else (if (resolve search.sort search.direction).natural
                 then Option.none
                 else search.cursor.map (fun c =>
                   { query := queried, sort := search.sort, cursor := c,
                     direction := 1 }))),
          (if (resolve search.sort search.direction).order = 1
           then (if (resolve search.sort search.direction).natural
                 then Option.none
                 else search.cursor.map (fun c =>
                   { query := queried, sort := search.sort, cursor := c,
                     direction := 1 }))
           else (if (resolve search.sort search.direction).natural
                 then search.cursor.map (fun c =>
                   { query := queried, sort := search.sort, cursor := c,
                     direction := -1 })
                 else Option.none))) := by
  have hc1 : ¬ (search.count < 1) := by omega
  have hrows : storeExec store (sem search.query)
      (resolve search.sort search.direction).sorter
      (resolve search.sort search.direction).hint
      (boundOf (resolve search.sort search.direction).natural search.cursor)
      (search.count + 1) = [] := by
    rw [storeExec_eq]
    unfold sortedMatching
    rw [hzero]
    rfl
  have hno : ¬ (([] : List Record).length = search.count + 1) := by
    simp
  simp only [find, if_neg hc1, hrows, assemble, if_neg hno]
  by_cases hna : (resolve search.sort search.direction).natural <;>
    by_cases hor : (resolve search.sort search.direction).order = 1 <;>
      simp [hna, hor]

/-- Witness for C8: forward-scan case (ascending order, no direction)
with a cursor: previous = cursor link, next = null, empty records. -/
theorem c8_empty_result_witness :
    (1 ≤ ({ query := 0, sort := [(1, 1)], count := 1,
            cursor := Option.some [(1, 7)], direction := Option.none,
            fields := Option.none } : SearchReq).count
      ∧ List.filter ((fun (_ : Nat) (_ : Record) => true) 0)
          ([] : List Record) = [])
    ∧ find ([] : List Record) (fun _ _ => true) 0
        { query := 0, sort := [(1, 1)], count := 1,
          cursor := Option.some [(1, 7)], direction := Option.none,
          fields := Option.none }
      = Except.ok ([],
          (if (resolve [(1, 1)] Option.none).order = 1
           then (if (resolve [(1, 1)] Option.none).natural
                 then (Option.some [(1, 7)] : Option Record).map (fun c =>
                   { query := 0, sort := [(1, 1)], cursor := c,
                     direction := -1 })
                 else Option.none)
           else (if (resolve [(1, 1)] Option.none).natural
                 then Option.none
                 else (Option.some [(1, 7)] : Option Record).map (fun c =>
                   { query := 0, sort := [(1, 1)], cursor := c,
                     direction := 1 }))),
          (if (resolve [(1, 1)] Option.none).order = 1
           then (if (resolve [(1, 1)] Option.none).natural
                 then Option.none
                 else (Option.some [(1, 7)] : Option Record).map (fun c =>
                   { query := 0, sort := [(1, 1)], cursor := c,
                     direction := 1 }))
           else (if (resolve [(1, 1)] Option.none).natural
                 then (Option.some [(1, 7)] : Option Record).map (fun c =>
                   { query := 0, sort := [(1, 1)], cursor := c,
                     direction := -1 })
                 else Option.none))) :=
  ⟨⟨by decide, by decide⟩,
    c8_empty_result ([] : List Record) (fun _ _ => true) 0
      { query := 0, sort := [(1, 1)], count := 1,
        cursor := Option.some [(1, 7)], direction := Option.none,
        fields := Option.none } (by decide) (by decide)⟩

/-- C9: a request with `count < 1` is rejected as a ContractViolation —
an error kind the caller sees in the return value — before the store is
ever consulted: the outcome is the same for every store. -/
theorem c9_count_validation (search : SearchReq) (hc : search.count < 1) :
    ∀ (store : List Record) (sem : Nat → Record → Bool) (queried : Nat),
      find store sem queried search = Except.error Err.contractViolation := by
  intro store sem queried
  simp [find, hc]

/-- Witness for C9 at `count = 0` on a non-empty store. -/
theorem c9_count_validation_witness :
    (({ query := 0, sort := [(1, 1)], count := 0, cursor := Option.none,
        direction := Option.none, fields := Option.none } : SearchReq).count
        < 1)
    ∧ find [[(1, 5)]] (fun _ _ => true) 0
        { query := 0, sort := [(1, 1)], count := 0, cursor := Option.none,
          direction := Option.none, fields := Option.none }
      = Except.error Err.contractViolation :=
  ⟨by decide,
    c9_count_validation
      { query := 0, sort := [(1, 1)], count := 0, cursor := Option.none,
        direction := Option.none, fields := Option.none } (by decide)
      [[(1, 5)]] (fun _ _ => true) 0⟩

/-- After `fields.visibility = 1`, looking `visibility` up in the
projection always yields `1`. -/
theorem lookup_setVisibility (fs : List (Field × Int)) :
    List.lookup visibilityField (setVisibility fs) = Option.some 1 := by
  unfold setVisibility
  split_ifs with h
  · induction fs with
    | nil => simp at h
    | cons p t ih =>
      obtain ⟨p1, p2⟩ := p
      by_cases hp : p1 = visibilityField
      · subst hp
        simp [List.lookup]
      · have hbeq : (visibilityField == p1) = false :=
          beq_eq_false_iff_ne.mpr (fun he => hp he.symm)
        simp only [List.map_cons] at h ⊢
        rw [if_neg hp]
        simp only [List.lookup, hbeq] at h ⊢
        exact ih h
  · induction fs with
    | nil => simp [List.lookup]
    | cons p t ih =>
      obtain ⟨p1, p2⟩ := p
      have hp : (visibilityField == p1) = false := by
        by_contra hb
        apply h
        have hbt : (visibilityField == p1) = true := by
          cases hq : (visibilityField == p1) with
          | true => rfl
          | false => exact absurd hq hb
        simp [List.lookup, hbt]
      simp only [List.lookup, List.cons_append, hp] at h ⊢
      exact ih h

/-- The field filter of src/index.js is the identity: the code forces
`visibility = 1` into every projection before filtering, and the filter
short-circuits whenever the projection asks for `visibility`. -/
theorem filterFields_withVis (f? : Option (List (Field × Int)))
    (o : Record) : filterFields (fieldsWithVisibility f?) o = o := by
  cases f? with
  | none => rfl
  | some fs =>
    simp [fieldsWithVisibility, filterFields, lookup_setVisibility]

/-- C10 counterexample: for one and the same SearchRequest and store
response, the two find copies return different links whenever
`ctx.queried` differs from `search.query`: src/index.js stamps
`ctx.queried` into its links while src/unnamed/part_000 stamps
`search.query`.  Here queried = 2 and query = 1, and the two previous
links disagree. -/
theorem c10_single_engine_counterexample :
    ¬ (prevLink (findI (fun o => o) ([] : List Record) (fun _ _ => true) 2
          { query := 1, sort := [(1, 1)], count := 1,
            cursor := Option.some [(1, 3)], direction := Option.some 1,
            fields := Option.none })
        = prevLink (findP ([] : List Record) (fun _ _ => true)
          { query := 1, sort := [(1, 1)], count := 1,
            cursor := Option.some [(1, 3)], direction := Option.some 1,
            fields := Option.none })) := by
  decide

/-- C10 amended: the two near-duplicate find implementations realize
the same pagination engine.  For every identical SearchRequest and
identical store response, the copy of src/index.js returns exactly the
records of the src/unnamed/part_000 copy mapped through the external
visibility collaborator (its own field filter is provably the
identity), and exactly the same previous/next links up to the stamped
query object: index.js writes `ctx.queried` where part_000 writes
`search.query`, so the links coincide precisely when those agree. -/
theorem c10_single_engine (vis : Record → Record) (store : List Record)
    (sem : Nat → Record → Bool) (queried : Nat) (search : SearchReq) :
    findI vis store sem queried search
      = (match findP store sem search with
         | Except.error e => Except.error e
         | Except.ok (recs, l, nx) =>
           Except.ok (recs.map vis, l.map (relabelQuery queried),
             nx.map (relabelQuery queried))) := by
  by_cases hc : search.count < 1
  · simp [findI, findP, hc]
  · simp only [findI, findP, if_neg hc, filterFields_withVis]
    split_ifs <;>
      (simp [relabelQuery, Option.map_map, Function.comp]
       cases search.cursor <;> simp [relabelQuery])

end Model
